import Mathlib

/-!
Verification development for the timetable-sync Timetable Event
Aggregation & Feed Synthesis Engine and its frontend helpers.

The aggregation engine itself (the Python `timetable`/`backend` packages)
is not part of the checked-in sources here, only its frontend callers are;
its data model and operations are therefore modelled from the
specification (each such definition is marked `Modelled from the spec:`).
The frontend helpers (`formatWeeks`, `createLoadOptions`, `fetchEvents`,
`fetchCalendar`) are shallow embeddings of the JavaScript/TypeScript
source files.
-/

namespace TimetableSync

/-! ## Data model (modelled from the spec, section 3) -/

/-- Modelled from the spec: the five selectable entity kinds. -/
inductive Kind where
  | Course
  | Module
  | Location
  | Club
  | Society
deriving DecidableEq, Repr

/-- Modelled from the spec: identity + display-name pair for a selectable
timetable/club dimension. -/
structure EntityRef where
  kind : Kind
  identity : String
  display_name : String
deriving DecidableEq, Repr

/-- Modelled from the spec: structured breakdown of a free-text session
title (module codes, session type). -/
structure ParsedName where
  module_codes : List String
  session_type : Option String
deriving DecidableEq, Repr

/-- Modelled from the spec: derived display strings cached with the
event. -/
structure Display where
  summary : String
  description : String
  location : String
deriving DecidableEq, Repr

/-- Modelled from the spec: the engine's normalized unit.  Instants are
absolute UTC timestamps in milliseconds. -/
structure CanonicalEvent where
  identity : String
  start : Int
  «end» : Int
  associated_entities : List EntityRef
  parsed_name : List ParsedName
  location : Option String
  location_long : Option String
  staff_member : Option String
  weeks : Option (List Int)
  display : Display
deriving DecidableEq, Repr

/-- Modelled from the spec: provider-native representation of one
scheduled session (minimal required subset). -/
structure RawRecord where
  provider : String
  recordId : String
  start : Int
  «end» : Int
  title : String
  entities : List EntityRef
  location : Option String
  staff : Option String
  weeks : Option (List Int)
deriving DecidableEq, Repr

/-- Modelled from the spec: mapping from week-of-term integers to dates,
injected as a read-only dependency.  Week `w` (1-based) starts at
`week1Start + (w - 1) * msPerWeek`. -/
structure TermCalendar where
  week1Start : Int
  numWeeks : Int
deriving DecidableEq, Repr

/-- Milliseconds in one term week. -/
def msPerWeek : Int := 7 * 24 * 60 * 60 * 1000

/-- Start instant of week `w` in a term calendar. -/
def TermCalendar.weekStart (cal : TermCalendar) (w : Int) : Int :=
  cal.week1Start + (w - 1) * msPerWeek

/-! ## Event Normalizer (modelled from the spec, section 4.3) -/

/-- A token is a module code when it is at least two letters followed by
at least one digit (e.g. "CA101"). -/
def isModuleCode (s : String) : Bool :=
  let cs := s.toList
  decide (cs.length ≥ 3) && (cs.take 2).all Char.isUpper &&
    decide (cs.drop 2 ≠ []) && (cs.drop 2).all Char.isDigit

/-- Session-type words recognised by the title pattern set. -/
def sessionTypeWords : List String :=
  ["Lecture", "Tutorial", "Laboratory", "Seminar", "Practical", "Workshop"]

/-- Split a character list at spaces, keeping empty tokens. -/
def wordsAux : List Char → List Char → List String
  | [], acc => [String.mk acc.reverse]
  | c :: rest, acc =>
    if c = ' ' then String.mk acc.reverse :: wordsAux rest []
    else wordsAux rest (c :: acc)

/-- Split a title at single spaces. -/
def splitOnSpace (s : String) : List String := wordsAux s.toList []

/-- Modelled from the spec: one pattern matcher of the provider pattern
set — extracts module codes and a session type from a space-separated
title, failing (returning `none`) when no module code is present. -/
def moduleCodeMatcher (title : String) : Option ParsedName :=
  let tokens := splitOnSpace title
  let codes := tokens.filter isModuleCode
  if codes = [] then none
  else some ⟨codes, tokens.find? (fun t => sessionTypeWords.contains t)⟩

/-- Modelled from the spec: the pluggable pattern matchers tried in
priority order. -/
def titleMatchers : List (String → Option ParsedName) := [moduleCodeMatcher]

/-- Modelled from the spec: apply the pattern set to a free-text title;
`none` when no pattern matches (an expected, not exceptional, outcome). -/
def parseTitle (title : String) : Option ParsedName :=
  titleMatchers.firstM (fun m => m title)

/-- Modelled from the spec: derived display strings; the summary falls
back to the raw title verbatim when the title is unparseable. -/
def mkDisplay (r : RawRecord) : Display :=
  { summary :=
      match parseTitle r.title with
      | some p => String.intercalate ", " p.module_codes
      | none => r.title
    description :=
      match parseTitle r.title with
      | some p => p.session_type.getD ""
      | none => ""
    location := (r.location).getD "" }

/-- Modelled from the spec: `normalize(RawRecord, provider) ->
CanonicalEvent`.  The identity is a deterministic function of the source
provider and source record id (the occurrence index is appended by the
Recurrence Expander). -/
def normalize (r : RawRecord) : CanonicalEvent :=
  { identity := r.provider ++ "/" ++ r.recordId
    start := r.start
    «end» := r.«end»
    associated_entities := r.entities
    parsed_name := (parseTitle r.title).toList
    location := r.location
    location_long := r.location
    staff_member := r.staff
    weeks := r.weeks
    display := mkDisplay r }

/-- Modelled from the spec: a record that fails normalization
(`MalformedUpstreamRecord`, here: violating `start < end`) is skipped
before normalization, the rest of the response proceeds. -/
def validRecord (r : RawRecord) : Bool :=
  decide (r.start < r.«end»)

/-! ## Recurrence Expander (modelled from the spec, section 4.4) -/

/-- Modelled from the spec: `expand(template_event, term_calendar)`.
One concrete occurrence per in-term week in `weeks`, each advanced by the
appropriate number of term-weeks from the template's first occurrence,
each retaining the original `weeks` field for display; out-of-term week
numbers are dropped silently; an event with no `weeks` field is a single
concrete occurrence.  Occurrence identities append the occurrence
index. -/
def expandWith (cal : TermCalendar) (t : CanonicalEvent) : List CanonicalEvent :=
  match t.weeks with
  | none => [t]
  | some ws =>
    let valid := ws.filter (fun w => decide (1 ≤ w) && decide (w ≤ cal.numWeeks))
    match valid with
    | [] => []
    | w0 :: _ =>
      valid.enum.map (fun p =>
        { t with
            identity := t.identity ++ "#" ++ toString p.1
            start := t.start + (p.2 - w0) * msPerWeek
            «end» := t.«end» + (p.2 - w0) * msPerWeek })

/-! ## Deduplicator & Merger (modelled from the spec, section 4.5) -/

/-- Set-union of two entity lists (keeps the first list's order, appends
members of the second not already present). -/
def unionEntities (xs ys : List EntityRef) : List EntityRef :=
  xs ++ ys.filter (fun y => ¬ xs.contains y)

/-- Modelled from the spec: on an identity collision the record observed
later (most recent fetch) wins the descriptive fields, and the
`associated_entities` sets are unioned. -/
def mergeEvent (old new : CanonicalEvent) : CanonicalEvent :=
  { new with
      identity := old.identity
      associated_entities := unionEntities old.associated_entities new.associated_entities }

/-- Insert one event into an identity-keyed accumulator. -/
def mergeInto (acc : List CanonicalEvent) (e : CanonicalEvent) : List CanonicalEvent :=
  if acc.any (fun x => x.identity == e.identity) then
    acc.map (fun x => if x.identity == e.identity then mergeEvent x e else x)
  else
    acc ++ [e]

/-- Modelled from the spec: `merge(sequences of CanonicalEvent from
multiple query branches) -> set of CanonicalEvent` keyed by identity. -/
def merge (branches : List (List CanonicalEvent)) : List CanonicalEvent :=
  branches.flatten.foldl mergeInto []

/-- All associated entities attributed to identity `i` in an event
list. -/
def entitiesFor (es : List CanonicalEvent) (i : String) : List EntityRef :=
  (es.filter (fun e => e.identity == i)).flatMap (fun e => e.associated_entities)

/-- Whether some event in the list carries identity `i`. -/
def hasId (es : List CanonicalEvent) (i : String) : Bool :=
  es.any (fun e => e.identity == i)

/-! ## Output ordering (modelled from the spec, section 5) -/

/-- Modelled from the spec: order events by `start` ascending, ties
broken by `identity` lexicographically. -/
def eventLE (a b : CanonicalEvent) : Bool :=
  decide (a.start < b.start) ||
    (decide (a.start = b.start) && decide (a.identity ≤ b.identity))

/-- Modelled from the spec: the defined output ordering of the final
event set. -/
def sortEvents (es : List CanonicalEvent) : List CanonicalEvent :=
  es.mergeSort eventLE

/-! ## Query pipeline (modelled from the spec, sections 2 and 4) -/

/-- Normalize, then expand, one branch of fetched raw records. -/
def processBranch (cal : TermCalendar) (rs : List RawRecord) : List CanonicalEvent :=
  ((rs.filter validRecord).map normalize).flatMap (expandWith cal)

/-- Modelled from the spec: the engine pipeline after fetching — each
branch's records are normalized and expanded, branches are merged keyed
by identity, and the result is put in the defined output order. -/
def queryEvents (cal : TermCalendar) (branchRecords : List (List RawRecord)) :
    List CanonicalEvent :=
  sortEvents (merge (branchRecords.map (processBranch cal)))

/-! ## Upstream Fetcher (modelled from the spec, sections 4.2 and 7) -/

/-- Modelled from the spec: the error taxonomy members the fetch path can
surface. -/
inductive EngineError where
  | UpstreamUnavailable
deriving DecidableEq, Repr

/-- Outcome of one provider's fetch: its raw records, or a failure. -/
def ProviderOutcome := Except Unit (List RawRecord)

/-- A fetch round: each provider's name paired with its outcome. -/
structure FetchSuccess where
  records : List RawRecord
  warnings : List String
deriving DecidableEq, Repr

/-- Names of the providers whose fetch failed. -/
def failedProviders (results : List (String × ProviderOutcome)) : List String :=
  results.filterMap (fun pr =>
    match pr.2 with
    | Except.error _ => some pr.1
    | Except.ok _ => none)

/-- Raw records of the providers whose fetch succeeded. -/
def successRecords (results : List (String × ProviderOutcome)) : List RawRecord :=
  (results.filterMap (fun pr =>
    match pr.2 with
    | Except.ok rs => some rs
    | Except.error _ => none)).flatten

/-- Modelled from the spec: partial failure policy of the Fetcher — if
some providers fail while others succeed, return the successful subset
with a non-fatal warning naming each failed provider; only total failure
(every provider failed) surfaces as `UpstreamUnavailable`. -/
def fetchAll (results : List (String × ProviderOutcome)) :
    Except EngineError FetchSuccess :=
  if results.length ≠ 0 ∧ (failedProviders results).length = results.length then
    Except.error EngineError.UpstreamUnavailable
  else
    Except.ok ⟨successRecords results, failedProviders results⟩

/-! ## Query surface (modelled from the spec, section 6) -/

/-- Modelled from the spec: the five selection parameters of a query,
each a list of EntityRef identities (absent = empty list). -/
structure Query where
  courses : List String
  modules : List String
  locations : List String
  clubs : List String
  societies : List String
deriving DecidableEq, Repr

/-- Modelled from the spec: the providers a query touches — the
timetable provider when any of courses/modules/locations is selected,
the clubs-and-societies provider when any club or society is selected. -/
def providerNames (q : Query) : List String :=
  (if q.courses ≠ [] ∨ q.modules ≠ [] ∨ q.locations ≠ [] then ["timetable"] else []) ++
    (if q.clubs ≠ [] ∨ q.societies ≠ [] then ["clubs-and-societies"] else [])

/-- Modelled from the spec: run a query against the outcomes `upstream`
gives for each touched provider — fetch, normalize, expand, merge and
order, carrying the non-fatal warnings through. -/
def runQuery (q : Query) (cal : TermCalendar)
    (upstream : String → ProviderOutcome) :
    Except EngineError (List CanonicalEvent × List String) :=
  match fetchAll ((providerNames q).map (fun n => (n, upstream n))) with
  | Except.error e => Except.error e
  | Except.ok fs => Except.ok (queryEvents cal [fs.records], fs.warnings)

/-! ## Feed Serializer (modelled from the spec, section 4.6) -/

/-- Render a UTC instant with an explicit Z suffix. -/
def fmtUTC (t : Int) : String := toString t ++ "Z"

/-- Modelled from the spec: the iCalendar content lines of one `VEVENT`
block as (property-name, value) pairs; `DTSTAMP` is the
generation-timestamp metadata field. -/
def eventContentLines (genTs : Int) (e : CanonicalEvent) : List (String × String) :=
  [("BEGIN", "VEVENT"),
   ("UID", e.identity),
   ("DTSTAMP", fmtUTC genTs),
   ("DTSTART", fmtUTC e.start),
   ("DTEND", fmtUTC e.«end»),
   ("SUMMARY", e.display.summary),
   ("DESCRIPTION", e.display.description),
   ("LOCATION", e.display.location),
   ("END", "VEVENT")]

/-- Modelled from the spec: all content lines of the iCalendar document —
a stable `PRODID`, then one `VEVENT` block per CanonicalEvent. -/
def icalContentLines (events : List CanonicalEvent) (genTs : Int) :
    List (String × String) :=
  [("BEGIN", "VCALENDAR"), ("VERSION", "2.0"),
   ("PRODID", "-//timetable-sync//feed//EN")] ++
    events.flatMap (eventContentLines genTs) ++ [("END", "VCALENDAR")]

/-- Modelled from the spec: `to_ical(events)` — serialize the content
lines to iCalendar text. -/
def to_ical (events : List CanonicalEvent) (genTs : Int) : String :=
  String.intercalate "\r\n"
    ((icalContentLines events genTs).map (fun l => l.1 ++ ":" ++ l.2))

/-- Drop the generation-timestamp metadata lines from content lines. -/
def withoutGenTs (lines : List (String × String)) : List (String × String) :=
  lines.filter (fun l => l.1 != "DTSTAMP")

/-! ## Frontend: formatWeeks (src/unnamed/part_008, lines 113-135) -/

/-- Render one accumulated run, as in the source's
`start === end ? start : start-end`. -/
def renderRun (a b : Int) : String :=
  if a = b then toString a else toString a ++ "-" ++ toString b

/-- The loop of `formatWeeks`: walk the remaining weeks carrying the
current run `[s, e]` and the emitted range tokens. -/
def formatWeeksLoop : List Int → Int → Int → List String → List String
  | [], s, e, ranges => ranges ++ [renderRun s e]
  | c :: rest, s, e, ranges =>
    if c = e + 1 then
      formatWeeksLoop rest s c ranges
    else
      formatWeeksLoop rest c c (ranges ++ [renderRun s e])

/-- Embedding of `formatWeeks` from src/unnamed/part_008: group the week
list into dash ranges joined by ", ". -/
def formatWeeks : List Int → String
  | [] => ""
  | w :: rest => String.intercalate ", " (formatWeeksLoop rest w w [])

/-- The claim's specification of the grouping: the maximal runs of
consecutive integers of the list, as (first, last) pairs — a new run
starts exactly when the next element is not the current element plus
one. -/
def maximalRuns : List Int → List (Int × Int)
  | [] => []
  | x :: xs =>
    match maximalRuns xs with
    | [] => [(x, x)]
    | (a, b) :: rs => if a = x + 1 then (x, b) :: rs else (x, x) :: (a, b) :: rs

/-! ## Frontend: createLoadOptions (src/unnamed/part_008, lines 62-100,
and src/unnamed/part_007, lines 45-85) -/

/-- An `{identity, name}` item of the directory provider's response. -/
structure DirectoryItem where
  name : String
  identity : String
deriving DecidableEq, Repr

/-- A react-select option as built by the loaders. -/
structure SelectOption where
  label : String
  value : String
deriving DecidableEq, Repr

/-- Outcome of the loader's `fetch` + `res.json()`: decoded items, or a
thrown exception. -/
def FetchOutcome := Except Unit (List DirectoryItem)

/-- What one invocation of a loader did: the URL it requested (`none`
when it issued no request) and the option list handed to the callback. -/
structure LoadResult where
  request : Option String
  callbackOptions : List SelectOption
deriving DecidableEq, Repr

/-- The `category_type_mapping` table of src/unnamed/part_008. -/
def category_type_mapping : List (String × String) :=
  [("module", "525fe79b-73c3-4b5c-8186-83c652b3adcc"),
   ("location", "1e042cb1-547d-41d4-ae93-a1f2c3d34538"),
   ("course", "241e4d36-60e0-49f8-b27e-99416745d98d")]

/-- The `category_type_mapping` table of src/unnamed/part_007 (adds the
club and society rows). -/
def category_type_mapping_gen : List (String × String) :=
  category_type_mapping ++ [("society", "society"), ("club", "club")]

/-- Embedding of the loader returned by `createLoadOptions` in
src/unnamed/part_008: empty input short-circuits to an empty option list
with no request; otherwise the directory is queried and a thrown
fetch/decode error also yields the empty option list. -/
def loadOptionsModel (category_type : String) (inputValue : String)
    (outcome : FetchOutcome) : LoadResult :=
  let category_type_id := (category_type_mapping.lookup category_type).getD "undefined"
  if inputValue = "" then
    ⟨none, []⟩
  else
    let url := "/api/v3/timetable/category/" ++ category_type_id ++
      "/items?query=" ++ inputValue
    match outcome with
    | Except.ok data => ⟨some url, data.map (fun item => ⟨item.name, item.identity⟩)⟩
    | Except.error _ => ⟨some url, []⟩

/-- Embedding of the loader returned by `createLoadOptions` in
src/unnamed/part_007 (the generator page variant, parameterized over the
provider group as well). -/
def loadOptionsModelGen (group_type category_type : String) (inputValue : String)
    (outcome : FetchOutcome) : LoadResult :=
  let category_type_id := (category_type_mapping_gen.lookup category_type).getD "undefined"
  if inputValue = "" then
    ⟨none, []⟩
  else
    let url := "/api/v3/" ++ group_type ++ "/category/" ++ category_type_id ++
      "/items?query=" ++ inputValue
    match outcome with
    | Except.ok data => ⟨some url, data.map (fun item => ⟨item.name, item.identity⟩)⟩
    | Except.error _ => ⟨some url, []⟩

/-! ## Frontend: empty-selection fetches (src/unnamed/part_003, lines
132-159, and src/unnamed/part_008, lines 165-188) -/

/-- Embedding of the selection test of `fetchEvents` in
src/unnamed/part_003: with no course, module or location selected the
events data is `[]` and no `/api` request is issued; otherwise the
server response is used.  The Bool records whether a request was
issued. -/
def fetchEventsData (courses modules locations : List String)
    (response : List CanonicalEvent) : List CanonicalEvent × Bool :=
  if courses.length = 0 ∧ modules.length = 0 ∧ locations.length = 0 then
    ([], false)
  else
    (response, true)

/-- Embedding of the selection test of `fetchCalendar` in
src/unnamed/part_008: with no option selected it returns `[]` without
issuing the events request. -/
def fetchCalendarData (courseOptions moduleOptions locationOptions : List SelectOption)
    (response : List CanonicalEvent) : List CanonicalEvent × Bool :=
  if courseOptions.length = 0 ∧ moduleOptions.length = 0 ∧ locationOptions.length = 0 then
    ([], false)
  else
    (response, true)

/-! ## Theorems -/

/-- C8: For every RawRecord whose free-text title matches no parsing
pattern, normalize still returns a CanonicalEvent (it is total), with
`parsed_name` left empty and `display.summary` equal to the raw title
verbatim. -/
theorem C8_unparseable_title_fallback (r : RawRecord)
    (h : parseTitle r.title = none) :
    (normalize r).parsed_name = [] ∧ (normalize r).display.summary = r.title := by
  refine ⟨?_, ?_⟩ <;> simp [normalize, mkDisplay, h]

/-- A concrete clubs-and-societies record whose title matches no
pattern. -/
def yogaRecord : RawRecord :=
  { provider := "cns"
    recordId := "r9"
    start := 0
    «end» := 3600000
    title := "Yoga class"
    entities := []
    location := none
    staff := none
    weeks := none }

/-- Witness for C8 at a concrete unparseable record. -/
theorem C8_unparseable_title_fallback_witness :
    parseTitle yogaRecord.title = none ∧
      ((normalize yogaRecord).parsed_name = [] ∧
        (normalize yogaRecord).display.summary = yogaRecord.title) :=
  ⟨by decide, C8_unparseable_title_fallback yogaRecord (by decide)⟩

/-- C10: A loader produced by `createLoadOptions` (both the timetable
viewer and the generator variant) hands the callback the empty option
list without issuing any HTTP request when the input is empty, and hands
it the empty option list when the fetch or JSON decoding throws — a
directory-search failure is never surfaced to the caller as an error. -/
theorem C10_loadOptions_failure_is_empty (gt ct input : String)
    (outcome : FetchOutcome) :
    (input = "" →
      loadOptionsModel ct input outcome = ⟨none, []⟩ ∧
        loadOptionsModelGen gt ct input outcome = ⟨none, []⟩) ∧
    (∀ e : Unit, outcome = Except.error e →
      (loadOptionsModel ct input outcome).callbackOptions = [] ∧
        (loadOptionsModelGen gt ct input outcome).callbackOptions = []) := by
  constructor
  · intro h
    constructor <;> simp [loadOptionsModel, loadOptionsModelGen, h]
  · intro e h
    subst h
    by_cases hin : input = "" <;>
      constructor <;> simp [loadOptionsModel, loadOptionsModelGen, hin]

/-- Witness for C10: empty input issues no request; a thrown fetch gives
the empty option list. -/
theorem C10_loadOptions_failure_is_empty_witness :
    (loadOptionsModel "module" "" (Except.ok []) = ⟨none, []⟩) ∧
    (loadOptionsModel "module" "ca" (Except.error ())).callbackOptions = [] ∧
    (loadOptionsModelGen "cns" "club" "ch" (Except.error ())).callbackOptions = [] :=
  ⟨((C10_loadOptions_failure_is_empty "cns" "module" "" (Except.ok [])).1 rfl).1,
   ((C10_loadOptions_failure_is_empty "cns" "module" "ca" (Except.error ())).2 () rfl).1,
   ((C10_loadOptions_failure_is_empty "cns" "club" "ch" (Except.error ())).2 () rfl).2⟩

/-- C7: A query in which all five selection parameters are absent or
empty produces an empty result and no error: the engine returns
`Except.ok` with no events and no warnings, and the frontend fetchers
short-circuit to an empty event list without issuing a request. -/
theorem C7_all_empty_selection_yields_empty (q : Query) (cal : TermCalendar)
    (upstream : String → ProviderOutcome) (resp : List CanonicalEvent)
    (hc : q.courses = []) (hm : q.modules = []) (hl : q.locations = [])
    (hb : q.clubs = []) (hs : q.societies = []) :
    runQuery q cal upstream = Except.ok ([], []) ∧
    fetchEventsData [] [] [] resp = ([], false) ∧
    fetchCalendarData [] [] [] resp = ([], false) := by
  have hp : providerNames q = [] := by
    simp [providerNames, hc, hm, hl, hb, hs]
  refine ⟨?_, rfl, rfl⟩
  simp [runQuery, hp, fetchAll, failedProviders, successRecords, queryEvents,
    processBranch, merge, sortEvents]

/-- Witness for C7 at the all-empty query. -/
theorem C7_all_empty_selection_yields_empty_witness :
    runQuery ⟨[], [], [], [], []⟩ ⟨0, 12⟩ (fun _ => Except.ok []) =
        Except.ok ([], []) ∧
      fetchEventsData [] [] [] [] = ([], false) ∧
      fetchCalendarData [] [] [] [] = ([], false) :=
  C7_all_empty_selection_yields_empty ⟨[], [], [], [], []⟩ ⟨0, 12⟩
    (fun _ => Except.ok []) [] rfl rfl rfl rfl rfl

/-- One `VEVENT` block with the generation-timestamp line dropped does
not depend on the generation timestamp. -/
theorem withoutGenTs_eventContentLines (t : Int) (e : CanonicalEvent) :
    (eventContentLines t e).filter (fun l => l.1 != "DTSTAMP") =
      [("BEGIN", "VEVENT"), ("UID", e.identity), ("DTSTART", fmtUTC e.start),
       ("DTEND", fmtUTC e.«end»), ("SUMMARY", e.display.summary),
       ("DESCRIPTION", e.display.description), ("LOCATION", e.display.location),
       ("END", "VEVENT")] := rfl

/-- The concatenated `VEVENT` blocks with generation-timestamp lines
dropped agree across generation timestamps. -/
theorem filter_flatMap_eventContentLines (t1 t2 : Int) (es : List CanonicalEvent) :
    (es.flatMap (eventContentLines t1)).filter (fun l => l.1 != "DTSTAMP") =
      (es.flatMap (eventContentLines t2)).filter (fun l => l.1 != "DTSTAMP") := by
  induction es with
  | nil => rfl
  | cons e rest ih =>
    simp only [List.flatMap_cons, List.filter_append]
    rw [ih, (withoutGenTs_eventContentLines t1 e).trans
      (withoutGenTs_eventContentLines t2 e).symm]

/-- C3: Serializing the same merged event set to iCalendar twice (same
inputs, same window) produces identical content lines — in particular
identical `VEVENT` blocks — except for the generation-timestamp
(`DTSTAMP`) metadata lines. -/
theorem C3_ical_reserialization_stable (es : List CanonicalEvent) (t1 t2 : Int) :
    withoutGenTs (icalContentLines es t1) = withoutGenTs (icalContentLines es t2) := by
  unfold withoutGenTs icalContentLines
  simp only [List.filter_append, filter_flatMap_eventContentLines t1 t2]

/-- At most as many providers fail as there are providers. -/
theorem failedProviders_length_le (results : List (String × ProviderOutcome)) :
    (failedProviders results).length ≤ results.length :=
  List.length_filterMap_le _ _

/-- With at least one successful provider, strictly fewer providers fail
than there are providers. -/
theorem failedProviders_length_lt (results : List (String × ProviderOutcome))
    (n : String) (rs : List RawRecord) (h : (n, Except.ok rs) ∈ results) :
    (failedProviders results).length < results.length := by
  induction results with
  | nil => cases h
  | cons p rest ih =>
    rcases List.mem_cons.mp h with rfl | h'
    · simpa [failedProviders] using
        Nat.lt_succ_of_le (failedProviders_length_le rest)
    · have hlt := ih h'
      unfold failedProviders at hlt ⊢
      rw [List.filterMap_cons]
      cases hp : (match p.2 with
        | Except.error _ => some p.1
        | Except.ok _ => none : Option String) with
      | none => exact Nat.lt_succ_of_lt hlt
      | some b => simpa using Nat.succ_lt_succ hlt

/-- When every provider fails, the failed-provider list is full
length. -/
theorem failedProviders_length_eq (results : List (String × ProviderOutcome))
    (h : ∀ p ∈ results, ∃ e, p.2 = Except.error e) :
    (failedProviders results).length = results.length := by
  induction results with
  | nil => rfl
  | cons p rest ih =>
    obtain ⟨e, he⟩ := h p (List.mem_cons_self p rest)
    have htail := ih (fun q hq => h q (List.mem_cons_of_mem p hq))
    unfold failedProviders at htail ⊢
    rw [List.filterMap_cons, he]
    simpa using htail

/-- A provider that failed is named in the failed-provider list. -/
theorem mem_failedProviders (results : List (String × ProviderOutcome))
    (n : String) (e : Unit) (h : (n, Except.error e) ∈ results) :
    n ∈ failedProviders results := by
  unfold failedProviders
  exact List.mem_filterMap.mpr ⟨(n, Except.error e), h, rfl⟩

/-- C6: Partial-failure policy of the Fetcher.  When at least one
provider succeeds, the fetch is reported as a success carrying the
records of the successful providers and a non-fatal warnings list naming
every failed provider; only when all providers fail does the fetch
surface `UpstreamUnavailable`. -/
theorem C6_partial_failure_policy (results : List (String × ProviderOutcome)) :
    ((∃ p ∈ results, ∃ rs, p.2 = Except.ok rs) →
      fetchAll results =
          Except.ok ⟨successRecords results, failedProviders results⟩ ∧
        ∀ n : String, ∀ e : Unit, (n, Except.error e) ∈ results →
          n ∈ failedProviders results) ∧
    ((results.length ≠ 0 ∧ ∀ p ∈ results, ∃ e, p.2 = Except.error e) →
      fetchAll results = Except.error EngineError.UpstreamUnavailable) := by
  constructor
  · rintro ⟨p, hp, rs, hok⟩
    have hlt : (failedProviders results).length < results.length := by
      have : (p.1, Except.ok rs) ∈ results := by
        rcases p with ⟨n, o⟩
        dsimp only at hok ⊢
        subst hok
        exact hp
      exact failedProviders_length_lt results p.1 rs this
    refine ⟨?_, fun n e hn => mem_failedProviders results n e hn⟩
    unfold fetchAll
    rw [if_neg]
    intro hcontra
    exact absurd hcontra.2 (Nat.ne_of_lt hlt)
  · rintro ⟨hne, hall⟩
    unfold fetchAll
    rw [if_pos ⟨hne, failedProviders_length_eq results hall⟩]

/-- One provider succeeded, one timed out. -/
def mixedOutcomes : List (String × ProviderOutcome) :=
  [("timetable", Except.ok [yogaRecord]), ("clubs-and-societies", Except.error ())]

/-- Every provider failed. -/
def failedOutcomes : List (String × ProviderOutcome) :=
  [("timetable", Except.error ()), ("clubs-and-societies", Except.error ())]

/-- Witness for C6: the mixed round is an HTTP-level success whose
warnings name the failed clubs-and-societies provider; the all-failed
round surfaces UpstreamUnavailable. -/
theorem C6_partial_failure_policy_witness :
    fetchAll mixedOutcomes = Except.ok ⟨[yogaRecord], ["clubs-and-societies"]⟩ ∧
      "clubs-and-societies" ∈ failedProviders mixedOutcomes ∧
      fetchAll failedOutcomes = Except.error EngineError.UpstreamUnavailable := by
  have hA := (C6_partial_failure_policy mixedOutcomes).1
    ⟨("timetable", Except.ok [yogaRecord]), by simp [mixedOutcomes], [yogaRecord], rfl⟩
  have hB := (C6_partial_failure_policy failedOutcomes).2
    (by
      refine ⟨by decide, ?_⟩
      intro p hp
      rcases List.mem_cons.mp hp with rfl | hp'
      · exact ⟨(), rfl⟩
      rcases List.mem_cons.mp hp' with rfl | hp''
      · exact ⟨(), rfl⟩
      · cases hp'')
  refine ⟨?_, ?_, hB⟩
  · rw [hA.1]
    rfl
  · exact hA.2 "clubs-and-societies" () (by simp [mixedOutcomes])

/-- C4: Expanding a template event with `weeks = [3, 5, 6]` over any
term calendar covering those weeks produces exactly 3 CanonicalEvents,
each with the same duration as the template, with consecutive start
instants 2 term-weeks and 1 term-week apart respectively, all at the
same offset within their calendar week (aligned to the calendar's week
boundaries). -/
theorem C4_expand_weeks_3_5_6 (t : CanonicalEvent) (cal : TermCalendar)
    (hw : t.weeks = some [3, 5, 6]) (hcal : 6 ≤ cal.numWeeks) :
    ∃ e0 e1 e2, expandWith cal t = [e0, e1, e2] ∧
      e0.«end» - e0.start = t.«end» - t.start ∧
      e1.«end» - e1.start = t.«end» - t.start ∧
      e2.«end» - e2.start = t.«end» - t.start ∧
      e1.start - e0.start = 2 * msPerWeek ∧
      e2.start - e1.start = msPerWeek ∧
      e1.start - cal.weekStart 5 = e0.start - cal.weekStart 3 ∧
      e2.start - cal.weekStart 6 = e0.start - cal.weekStart 3 := by
  have hc3 : (decide ((1:Int) ≤ 3) && decide ((3:Int) ≤ cal.numWeeks)) = true := by
    simp only [Bool.and_eq_true, decide_eq_true_eq]
    omega
  have hc5 : (decide ((1:Int) ≤ 5) && decide ((5:Int) ≤ cal.numWeeks)) = true := by
    simp only [Bool.and_eq_true, decide_eq_true_eq]
    omega
  have hc6 : (decide ((1:Int) ≤ 6) && decide ((6:Int) ≤ cal.numWeeks)) = true := by
    simp only [Bool.and_eq_true, decide_eq_true_eq]
    omega
  have hfilter : ([3, 5, 6] : List Int).filter
      (fun w => decide (1 ≤ w) && decide (w ≤ cal.numWeeks)) = [3, 5, 6] := by
    simp only [List.filter_cons, List.filter_nil, hc3, hc5, hc6, if_true]
  have hexp : expandWith cal t =
      [{ t with
           identity := t.identity ++ "#" ++ toString (0 : Nat)
           start := t.start + (3 - 3) * msPerWeek
           «end» := t.«end» + (3 - 3) * msPerWeek },
       { t with
           identity := t.identity ++ "#" ++ toString (1 : Nat)
           start := t.start + (5 - 3) * msPerWeek
           «end» := t.«end» + (5 - 3) * msPerWeek },
       { t with
           identity := t.identity ++ "#" ++ toString (2 : Nat)
           start := t.start + (6 - 3) * msPerWeek
           «end» := t.«end» + (6 - 3) * msPerWeek }] := by
    unfold expandWith
    rw [hw]
    simp only [hfilter, List.enum, List.enumFrom, List.map]
  refine ⟨_, _, _, hexp, ?_, ?_, ?_, ?_, ?_, ?_, ?_⟩ <;>
    simp [TermCalendar.weekStart] <;> ring

/-- Witness for C4 at a concrete template and calendar. -/
theorem C4_expand_weeks_3_5_6_witness :
    ∃ e0 e1 e2,
      expandWith ⟨0, 12⟩
          { identity := "tt/r1", start := 100, «end» := 200,
            associated_entities := [], parsed_name := [], location := none,
            location_long := none, staff_member := none,
            weeks := some [3, 5, 6], display := ⟨"s", "d", "l"⟩ } = [e0, e1, e2] ∧
        e0.«end» - e0.start = (200 : Int) - 100 ∧
        e1.«end» - e1.start = (200 : Int) - 100 ∧
        e2.«end» - e2.start = (200 : Int) - 100 ∧
        e1.start - e0.start = 2 * msPerWeek ∧
        e2.start - e1.start = msPerWeek ∧
        e1.start - TermCalendar.weekStart ⟨0, 12⟩ 5 =
          e0.start - TermCalendar.weekStart ⟨0, 12⟩ 3 ∧
        e2.start - TermCalendar.weekStart ⟨0, 12⟩ 6 =
          e0.start - TermCalendar.weekStart ⟨0, 12⟩ 3 :=
  C4_expand_weeks_3_5_6
    { identity := "tt/r1", start := 100, «end» := 200,
      associated_entities := [], parsed_name := [], location := none,
      location_long := none, staff_member := none,
      weeks := some [3, 5, 6], display := ⟨"s", "d", "l"⟩ }
    ⟨0, 12⟩ rfl (by decide)

/-- Merge a pending run `(s, e)` with the front of a run list: absorb
the first run when it continues `e` directly, otherwise emit `(s, e)` as
its own run. -/
def mergeFirstRun (s e : Int) : List (Int × Int) → List (Int × Int)
  | [] => [(s, e)]
  | (a, b) :: rs => if a = e + 1 then (s, b) :: rs else (s, e) :: (a, b) :: rs

/-- `maximalRuns` steps by merging the new head into the front run. -/
theorem maximalRuns_cons (x : Int) (xs : List Int) :
    maximalRuns (x :: xs) = mergeFirstRun x x (maximalRuns xs) := by
  rw [maximalRuns]
  cases h : maximalRuns xs with
  | nil => rfl
  | cons r rs => cases r with
    | mk a b => rfl

/-- Absorbing a fresh singleton run `(c, c)` into a pending run `(s, e)`
with `c = e + 1` extends the pending run to `c`. -/
theorem mergeFirstRun_absorb (s e c : Int) (L : List (Int × Int)) (h : c = e + 1) :
    mergeFirstRun s e (mergeFirstRun c c L) = mergeFirstRun s c L := by
  subst h
  cases L with
  | nil => simp [mergeFirstRun]
  | cons r rs =>
    cases r with
    | mk a b =>
      by_cases hac : a = e + 1 + 1 <;> simp [mergeFirstRun, hac]

/-- The first run produced by `mergeFirstRun c c L` starts at `c`. -/
theorem mergeFirstRun_head (c : Int) (L : List (Int × Int)) :
    ∃ b rs, mergeFirstRun c c L = (c, b) :: rs := by
  cases L with
  | nil => exact ⟨c, [], rfl⟩
  | cons r rs =>
    cases r with
    | mk a b =>
      by_cases hac : a = c + 1 <;> simp [mergeFirstRun, hac]

/-- With a gap (`c ≠ e + 1`) the pending run `(s, e)` is emitted in
front. -/
theorem mergeFirstRun_emit (s e c : Int) (L : List (Int × Int)) (h : ¬ c = e + 1) :
    mergeFirstRun s e (mergeFirstRun c c L) = (s, e) :: mergeFirstRun c c L := by
  obtain ⟨b, rs, hb⟩ := mergeFirstRun_head c L
  rw [hb]
  simp [mergeFirstRun, h]

/-- The `formatWeeks` loop renders exactly the pending run merged into
the maximal runs of the remaining input, appended to the tokens already
emitted. -/
theorem formatWeeksLoop_eq (rest : List Int) :
    ∀ s e ranges, formatWeeksLoop rest s e ranges =
      ranges ++ (mergeFirstRun s e (maximalRuns rest)).map
        (fun p => renderRun p.1 p.2) := by
  induction rest with
  | nil =>
    intro s e ranges
    simp [formatWeeksLoop, maximalRuns, mergeFirstRun]
  | cons c rest ih =>
    intro s e ranges
    rw [maximalRuns_cons]
    by_cases h : c = e + 1
    · rw [formatWeeksLoop, if_pos h, ih, mergeFirstRun_absorb s e c _ h]
    · rw [formatWeeksLoop, if_neg h, ih, mergeFirstRun_emit s e c _ h]
      simp

/-- C9: `formatWeeks` returns the empty string on the empty list, and in
general renders one token per maximal run of consecutive integers,
joined by ", ", a run of a single integer n as "n" and a run from a to b
as "a-b" (the strictly-increasing case of the claim is an instance). -/
theorem C9_formatWeeks_ranges (ws : List Int) :
    formatWeeks [] = "" ∧
      formatWeeks ws =
        String.intercalate ", "
          ((maximalRuns ws).map (fun p => renderRun p.1 p.2)) := by
  refine ⟨rfl, ?_⟩
  cases ws with
  | nil => rfl
  | cons w rest =>
    rw [formatWeeks, formatWeeksLoop_eq rest w w [], maximalRuns_cons]
    simp

/-- Entity attribution membership, unfolded. -/
theorem mem_entitiesFor (es : List CanonicalEvent) (i : String) (q : EntityRef) :
    q ∈ entitiesFor es i ↔
      ∃ e, e ∈ es ∧ e.identity = i ∧ q ∈ e.associated_entities := by
  simp [entitiesFor, List.mem_flatMap, List.mem_filter, beq_iff_eq, and_assoc]

/-- Membership in the entity union. -/
theorem mem_unionEntities (xs ys : List EntityRef) (q : EntityRef) :
    q ∈ unionEntities xs ys ↔ q ∈ xs ∨ q ∈ ys := by
  unfold unionEntities
  rw [List.mem_append]
  constructor
  · rintro (h | h)
    · exact Or.inl h
    · exact Or.inr (List.mem_of_mem_filter h)
  · rintro (h | h)
    · exact Or.inl h
    · by_cases hx : q ∈ xs
      · exact Or.inl hx
      · refine Or.inr (List.mem_filter.mpr ⟨h, ?_⟩)
        simpa using hx

/-- The collision branch of `mergeInto` keeps every accumulator
identity. -/
theorem identity_merge_update (e x : CanonicalEvent) :
    (if x.identity == e.identity then mergeEvent x e else x).identity =
      x.identity := by
  split <;> rfl

/-- `mergeInto` preserves pairwise-distinct identities. -/
theorem pairwise_mergeInto (acc : List CanonicalEvent) (e : CanonicalEvent)
    (h : acc.Pairwise (fun a b => a.identity ≠ b.identity)) :
    (mergeInto acc e).Pairwise (fun a b => a.identity ≠ b.identity) := by
  unfold mergeInto
  by_cases hc : (acc.any (fun x => x.identity == e.identity)) = true
  · rw [if_pos hc]
    refine (List.pairwise_map).mpr (h.imp ?_)
    intro a b hab
    rw [identity_merge_update, identity_merge_update]
    exact hab
  · rw [if_neg hc]
    rw [List.pairwise_append]
    refine ⟨h, List.pairwise_singleton _ _, ?_⟩
    intro a ha b hb
    rw [List.mem_singleton] at hb
    subst hb
    intro heq
    apply hc
    rw [List.any_eq_true]
    exact ⟨a, ha, by simp [heq]⟩

/-- `mergeInto` adds exactly the inserted event's identity. -/
theorem hasId_mergeInto (acc : List CanonicalEvent) (e : CanonicalEvent) (i : String) :
    hasId (mergeInto acc e) i = (hasId acc i || (e.identity == i)) := by
  unfold mergeInto hasId
  by_cases hc : (acc.any (fun x => x.identity == e.identity)) = true
  · rw [if_pos hc]
    rw [List.any_map]
    have hmap : ∀ x : CanonicalEvent,
        ((fun y => y.identity == i) ∘
          (fun x => if x.identity == e.identity then mergeEvent x e else x)) x =
          (x.identity == i) := by
      intro x
      simp only [Function.comp_apply]
      rw [identity_merge_update]
    have hfn : ((fun y : CanonicalEvent => y.identity == i) ∘
        (fun x => if x.identity == e.identity then mergeEvent x e else x)) =
        (fun x : CanonicalEvent => x.identity == i) := by
      funext x
      exact hmap x
    rw [hfn]
    by_cases he : (e.identity == i) = true
    · rcases List.any_eq_true.mp hc with ⟨x0, hx0, hx0e⟩
      have : (x0.identity == i) = true := by
        rw [beq_iff_eq] at he hx0e ⊢
        rw [hx0e, he]
      rw [he]
      rw [Bool.or_true]
      exact List.any_eq_true.mpr ⟨x0, hx0, this⟩
    · rw [Bool.eq_false_iff.mpr he]
      rw [Bool.or_false]
  · rw [if_neg hc]
    rw [List.any_append]
    simp [List.any_cons]

/-- Unfolding of entity attribution at a cons cell. -/
theorem mem_entitiesFor_cons (x : CanonicalEvent) (L : List CanonicalEvent)
    (i : String) (q : EntityRef) :
    q ∈ entitiesFor (x :: L) i ↔
      (x.identity = i ∧ q ∈ x.associated_entities) ∨ q ∈ entitiesFor L i := by
  rw [mem_entitiesFor, mem_entitiesFor]
  constructor
  · rintro ⟨e, he, hid, hq⟩
    rcases List.mem_cons.mp he with rfl | he'
    · exact Or.inl ⟨hid, hq⟩
    · exact Or.inr ⟨e, he', hid, hq⟩
  · rintro (⟨hid, hq⟩ | ⟨e, he, hid, hq⟩)
    · exact ⟨x, List.mem_cons_self x L, hid, hq⟩
    · exact ⟨e, List.mem_cons_of_mem x he, hid, hq⟩

/-- One `mergeInto` step attributes to identity `i` exactly the
accumulator's entities plus the inserted event's entities when its
identity is `i`. -/
theorem mem_entitiesFor_mergeInto (acc : List CanonicalEvent)
    (e : CanonicalEvent) (i : String) (q : EntityRef) :
    q ∈ entitiesFor (mergeInto acc e) i ↔
      q ∈ entitiesFor acc i ∨ (e.identity = i ∧ q ∈ e.associated_entities) := by
  unfold mergeInto
  by_cases hc : (acc.any (fun x => x.identity == e.identity)) = true
  · rw [if_pos hc]
    rw [mem_entitiesFor, mem_entitiesFor]
    constructor
    · rintro ⟨y, hy, hid, hq⟩
      rcases List.mem_map.mp hy with ⟨x, hx, rfl⟩
      by_cases hxe : (x.identity == e.identity) = true
      · rw [if_pos hxe] at hid hq
        have hxid : x.identity = i := hid
        rcases (mem_unionEntities _ _ q).mp hq with h1 | h1
        · exact Or.inl ⟨x, hx, hxid, h1⟩
        · refine Or.inr ⟨?_, h1⟩
          rw [beq_iff_eq] at hxe
          rw [← hxe]
          exact hxid
      · rw [if_neg hxe] at hid hq
        exact Or.inl ⟨x, hx, hid, hq⟩
    · rintro (⟨x, hx, hid, hq⟩ | ⟨hei, hq⟩)
      · refine ⟨if x.identity == e.identity then mergeEvent x e else x,
          List.mem_map_of_mem _ hx, ?_, ?_⟩
        · rw [identity_merge_update]
          exact hid
        · split
          · exact (mem_unionEntities _ _ q).mpr (Or.inl hq)
          · exact hq
      · rcases List.any_eq_true.mp hc with ⟨x0, hx0, hx0e⟩
        refine ⟨mergeEvent x0 e, ?_, ?_, ?_⟩
        · refine List.mem_map.mpr ⟨x0, hx0, ?_⟩
          rw [if_pos hx0e]
        · show x0.identity = i
          rw [beq_iff_eq] at hx0e
          rw [hx0e, hei]
        · exact (mem_unionEntities _ _ q).mpr (Or.inr hq)
  · rw [if_neg hc]
    rw [mem_entitiesFor, mem_entitiesFor]
    constructor
    · rintro ⟨y, hy, hid, hq⟩
      rcases List.mem_append.mp hy with hy' | hy'
      · exact Or.inl ⟨y, hy', hid, hq⟩
      · rw [List.mem_singleton] at hy'
        subst hy'
        exact Or.inr ⟨hid, hq⟩
    · rintro (⟨y, hy, hid, hq⟩ | ⟨hei, hq⟩)
      · exact ⟨y, List.mem_append_left _ hy, hid, hq⟩
      · exact ⟨e, List.mem_append_right _ (List.mem_singleton_self e), hei, hq⟩

/-- Folding `mergeInto` preserves pairwise-distinct identities. -/
theorem pairwise_foldl_mergeInto (L : List CanonicalEvent) :
    ∀ acc, acc.Pairwise (fun a b => a.identity ≠ b.identity) →
      (L.foldl mergeInto acc).Pairwise (fun a b => a.identity ≠ b.identity) := by
  induction L with
  | nil => exact fun acc h => h
  | cons x L ih => exact fun acc h => ih _ (pairwise_mergeInto acc x h)

/-- Folding `mergeInto` accumulates exactly the identities of the
accumulator and the processed list. -/
theorem hasId_foldl_mergeInto (L : List CanonicalEvent) :
    ∀ acc i, hasId (L.foldl mergeInto acc) i = (hasId acc i || hasId L i) := by
  induction L with
  | nil =>
    intro acc i
    simp [hasId]
  | cons x L ih =>
    intro acc i
    rw [List.foldl_cons, ih, hasId_mergeInto]
    show _ = (hasId acc i || List.any (x :: L) fun e => e.identity == i)
    rw [List.any_cons]
    rw [Bool.or_assoc]
    rfl

/-- Folding `mergeInto` attributes to identity `i` exactly the entities
attributed by the accumulator and by the processed list. -/
theorem mem_entitiesFor_foldl_mergeInto (L : List CanonicalEvent) :
    ∀ acc i q, q ∈ entitiesFor (L.foldl mergeInto acc) i ↔
      q ∈ entitiesFor acc i ∨ q ∈ entitiesFor L i := by
  induction L with
  | nil =>
    intro acc i q
    simp [entitiesFor]
  | cons x L ih =>
    intro acc i q
    rw [List.foldl_cons, ih, mem_entitiesFor_mergeInto, mem_entitiesFor_cons]
    tauto

/-- A list with pairwise-distinct identities containing identity `i`
has exactly one event with that identity. -/
theorem length_filter_eq_one (es : List CanonicalEvent) (i : String)
    (hdist : es.Pairwise (fun a b => a.identity ≠ b.identity))
    (hhas : hasId es i = true) :
    (es.filter (fun e => e.identity == i)).length = 1 := by
  induction es with
  | nil => simp [hasId] at hhas
  | cons a t ih =>
    rw [List.filter_cons]
    rcases List.pairwise_cons.mp hdist with ⟨hhead, htail⟩
    by_cases ha : (a.identity == i) = true
    · rw [if_pos ha]
      have hnone : t.filter (fun e => e.identity == i) = [] := by
        rw [List.filter_eq_nil_iff]
        intro b hb
        have hne := hhead b hb
        rw [beq_iff_eq] at ha
        simp [beq_iff_eq]
        rw [← ha]
        exact fun hcontra => hne hcontra.symm
      rw [hnone]
      rfl
    · rw [if_neg ha]
      have hhas' : hasId t i = true := by
        unfold hasId at hhas ⊢
        rw [List.any_cons] at hhas
        rcases Bool.or_eq_true_iff.mp hhas with h | h
        · exact absurd h ha
        · exact h
      exact ih htail hhas'

/-- C1: When two query branches both contain events with identity `i`,
the merged set contains exactly one CanonicalEvent with identity `i`,
and an entity is attributed to `i` in the merged set exactly when some
contributing event with identity `i` (in either branch) carried it —
i.e. the merged event's `associated_entities` is the union over all
contributing events. -/
theorem C1_merge_collision_unions_entities (b1 b2 : List CanonicalEvent)
    (i : String) (h1 : hasId b1 i = true) (h2 : hasId b2 i = true) :
    ((merge [b1, b2]).filter (fun e => e.identity == i)).length = 1 ∧
      ∀ q : EntityRef,
        q ∈ entitiesFor (merge [b1, b2]) i ↔ q ∈ entitiesFor (b1 ++ b2) i := by
  have hflat : ([b1, b2] : List (List CanonicalEvent)).flatten = b1 ++ b2 := by
    simp
  unfold merge
  rw [hflat]
  constructor
  · apply length_filter_eq_one _ i
    · exact pairwise_foldl_mergeInto _ [] List.Pairwise.nil
    · rw [hasId_foldl_mergeInto]
      have : hasId (b1 ++ b2) i = true := by
        unfold hasId at h1 ⊢
        rw [List.any_append, h1]
        rfl
      rw [this]
      rw [Bool.or_true]
  · intro q
    rw [mem_entitiesFor_foldl_mergeInto]
    simp [entitiesFor]

/-- Two branches surfacing the same session from a course match and a
module match. -/
def sessionViaCourse : CanonicalEvent :=
  { identity := "tt/r1#0"
    start := 100
    «end» := 200
    associated_entities := [⟨Kind.Course, "c1", "COMSCI1"⟩]
    parsed_name := []
    location := none
    location_long := none
    staff_member := none
    weeks := none
    display := ⟨"s", "d", "l"⟩ }

/-- The same session surfaced via a module match. -/
def sessionViaModule : CanonicalEvent :=
  { sessionViaCourse with
      associated_entities := [⟨Kind.Module, "m1", "CA101"⟩] }

/-- Witness for C1 at a concrete collision of a course-derived and a
module-derived branch. -/
theorem C1_merge_collision_unions_entities_witness :
    hasId [sessionViaCourse] "tt/r1#0" = true ∧
      ((merge [[sessionViaCourse], [sessionViaModule]]).filter
        (fun e => e.identity == "tt/r1#0")).length = 1 ∧
      (⟨Kind.Course, "c1", "COMSCI1"⟩ : EntityRef) ∈
        entitiesFor (merge [[sessionViaCourse], [sessionViaModule]]) "tt/r1#0" ∧
      (⟨Kind.Module, "m1", "CA101"⟩ : EntityRef) ∈
        entitiesFor (merge [[sessionViaCourse], [sessionViaModule]]) "tt/r1#0" := by
  have h := C1_merge_collision_unions_entities [sessionViaCourse]
    [sessionViaModule] "tt/r1#0" (by decide) (by decide)
  refine ⟨by decide, h.1, ?_, ?_⟩
  · exact (h.2 _).mpr (by decide)
  · exact (h.2 _).mpr (by decide)

/-- Expansion shifts start and end together, preserving `start < end`. -/
theorem expandWith_preserves_lt (cal : TermCalendar) (t : CanonicalEvent)
    (h : t.start < t.«end») :
    ∀ e ∈ expandWith cal t, e.start < e.«end» := by
  intro e he
  unfold expandWith at he
  cases hw : t.weeks with
  | none =>
    rw [hw] at he
    rw [List.mem_singleton] at he
    subst he
    exact h
  | some ws =>
    rw [hw] at he
    dsimp only at he
    cases hvv : ws.filter (fun w => decide (1 ≤ w) && decide (w ≤ cal.numWeeks)) with
    | nil =>
      rw [hvv] at he
      cases he
    | cons w0 tail =>
      rw [hvv] at he
      rcases List.mem_map.mp he with ⟨p, hp, rfl⟩
      exact add_lt_add_right h _

/-- Every event produced by one `mergeInto` step takes its start/end
pair from the accumulator or from the inserted event. -/
theorem startEnd_mergeInto (P : Int → Int → Prop) (acc : List CanonicalEvent)
    (e : CanonicalEvent) (hacc : ∀ a ∈ acc, P a.start a.«end»)
    (he : P e.start e.«end») :
    ∀ x ∈ mergeInto acc e, P x.start x.«end» := by
  intro x hx
  unfold mergeInto at hx
  by_cases hc : (acc.any (fun y => y.identity == e.identity)) = true
  · rw [if_pos hc] at hx
    rcases List.mem_map.mp hx with ⟨a, ha, rfl⟩
    split
    · exact he
    · exact hacc a ha
  · rw [if_neg hc] at hx
    rcases List.mem_append.mp hx with h | h
    · exact hacc _ h
    · rw [List.mem_singleton] at h
      subst h
      exact he

/-- Start/end predicates survive the whole merge fold. -/
theorem startEnd_foldl_mergeInto (P : Int → Int → Prop) (L : List CanonicalEvent) :
    ∀ acc, (∀ a ∈ acc, P a.start a.«end») → (∀ c ∈ L, P c.start c.«end») →
      ∀ x ∈ L.foldl mergeInto acc, P x.start x.«end» := by
  induction L with
  | nil => exact fun acc hacc _ x hx => hacc x hx
  | cons c L ih =>
    intro acc hacc hL x hx
    rw [List.foldl_cons] at hx
    exact ih _ (startEnd_mergeInto P acc c hacc (hL c (List.mem_cons_self c L)))
      (fun d hd => hL d (List.mem_cons_of_mem c hd)) x hx

/-- C2: In the final output set of a query no two CanonicalEvents share
an identity, and every CanonicalEvent satisfies `start < end`. -/
theorem C2_final_output_invariants (cal : TermCalendar)
    (branchRecords : List (List RawRecord)) :
    (queryEvents cal branchRecords).Pairwise (fun a b => a.identity ≠ b.identity) ∧
      ∀ e ∈ queryEvents cal branchRecords, e.start < e.«end» := by
  have hperm : (queryEvents cal branchRecords).Perm
      (merge (branchRecords.map (processBranch cal))) :=
    List.mergeSort_perm _ eventLE
  constructor
  · exact (hperm.pairwise_iff (fun h => Ne.symm h)).mpr
      (pairwise_foldl_mergeInto _ [] List.Pairwise.nil)
  · intro e he
    have heM := hperm.subset he
    refine startEnd_foldl_mergeInto (fun s t => s < t) _ [] (by simp) ?_ e heM
    intro c hc
    rcases List.mem_flatten.mp hc with ⟨br, hbr, hcbr⟩
    rcases List.mem_map.mp hbr with ⟨rs, hrs, rfl⟩
    unfold processBranch at hcbr
    rcases List.mem_flatMap.mp hcbr with ⟨t0, ht0, hct⟩
    rcases List.mem_map.mp ht0 with ⟨r, hr, rfl⟩
    have hv : validRecord r = true := (List.mem_filter.mp hr).2
    have hlt : (normalize r).start < (normalize r).«end» := by
      unfold validRecord at hv
      rw [decide_eq_true_eq] at hv
      exact hv
    exact expandWith_preserves_lt cal (normalize r) hlt c hct

/-- The output order as a proposition: `start` ascending, ties broken by
`identity` lexicographically. -/
def eventKeyLE (a b : CanonicalEvent) : Prop :=
  a.start < b.start ∨ (a.start = b.start ∧ a.identity ≤ b.identity)

/-- The Bool comparator decides `eventKeyLE`. -/
theorem eventLE_iff (a b : CanonicalEvent) : eventLE a b = true ↔ eventKeyLE a b := by
  unfold eventLE eventKeyLE
  simp [Bool.or_eq_true, Bool.and_eq_true, decide_eq_true_eq]

/-- Transitivity of the comparator. -/
theorem eventLE_trans (a b c : CanonicalEvent) (hab : eventLE a b = true)
    (hbc : eventLE b c = true) : eventLE a c = true := by
  rw [eventLE_iff] at hab hbc ⊢
  rcases hab with h | ⟨h1, h2⟩ <;> rcases hbc with g | ⟨g1, g2⟩
  · exact Or.inl (lt_trans h g)
  · refine Or.inl ?_
    rw [← g1]
    exact h
  · refine Or.inl ?_
    rw [h1]
    exact g
  · exact Or.inr ⟨h1.trans g1, le_trans h2 g2⟩

/-- Totality of the comparator. -/
theorem eventLE_total (a b : CanonicalEvent) :
    (eventLE a b || eventLE b a) = true := by
  rw [Bool.or_eq_true, eventLE_iff, eventLE_iff]
  unfold eventKeyLE
  rcases lt_trichotomy a.start b.start with h | h | h
  · exact Or.inl (Or.inl h)
  · rcases le_total a.identity b.identity with g | g
    · exact Or.inl (Or.inr ⟨h, g⟩)
    · exact Or.inr (Or.inr ⟨h.symm, g⟩)
  · exact Or.inr (Or.inl h)

/-- Mutually `eventKeyLE` events agree on the sort key. -/
theorem eventKeyLE_antisymm (a b : CanonicalEvent) (hab : eventKeyLE a b)
    (hba : eventKeyLE b a) : a.start = b.start ∧ a.identity = b.identity := by
  unfold eventKeyLE at hab hba
  rcases hab with h | ⟨h1, h2⟩ <;> rcases hba with g | ⟨g1, g2⟩
  · exact absurd g (lt_asymm h)
  · rw [g1] at h
    exact absurd h (lt_irrefl _)
  · rw [h1] at g
    exact absurd g (lt_irrefl _)
  · exact ⟨h1, le_antisymm h2 g2⟩

/-- Two sorted permutations of a list with pairwise-distinct identities
are equal: the output ordering is uniquely determined. -/
theorem sorted_distinct_unique (l1 : List CanonicalEvent) :
    ∀ l2, l1.Perm l2 → l1.Pairwise eventKeyLE → l2.Pairwise eventKeyLE →
      l1.Pairwise (fun a b => a.identity ≠ b.identity) → l1 = l2 := by
  induction l1 with
  | nil =>
    intro l2 hperm _ _ _
    exact (hperm.symm.eq_nil).symm
  | cons a t1 ih =>
    intro l2 hperm hs1 hs2 hd1
    cases l2 with
    | nil =>
      cases hperm.eq_nil
    | cons b t2 =>
      by_cases hab : a = b
      · subst hab
        have ht : t1.Perm t2 := (List.perm_cons a).mp hperm
        rw [ih t2 ht (List.pairwise_cons.mp hs1).2 (List.pairwise_cons.mp hs2).2
          (List.pairwise_cons.mp hd1).2]
      · have hat2 : a ∈ t2 := by
          rcases List.mem_cons.mp (hperm.subset (List.mem_cons_self a t1)) with h | h
          · exact absurd h hab
          · exact h
        have hbt1 : b ∈ t1 := by
          rcases List.mem_cons.mp (hperm.symm.subset (List.mem_cons_self b t2)) with h | h
          · exact absurd h.symm hab
          · exact h
        have h1 : eventKeyLE a b := (List.pairwise_cons.mp hs1).1 b hbt1
        have h2 : eventKeyLE b a := (List.pairwise_cons.mp hs2).1 a hat2
        have hne := (List.pairwise_cons.mp hd1).1 b hbt1
        exact absurd (eventKeyLE_antisymm a b h1 h2).2 hne

/-- C5: The output event sequence is sorted by `start` ascending with
ties broken by `identity` lexicographically, it is a permutation of the
event set, and — when identities are pairwise distinct, as they are in
final output — any two runs over the same event set (any permutation of
it) produce the same ordering. -/
theorem C5_output_ordering_stable (es : List CanonicalEvent) :
    (sortEvents es).Pairwise eventKeyLE ∧ (sortEvents es).Perm es ∧
      ∀ es', es.Perm es' → es.Pairwise (fun a b => a.identity ≠ b.identity) →
        sortEvents es' = sortEvents es := by
  have hsorted : ∀ l : List CanonicalEvent, (sortEvents l).Pairwise eventKeyLE := by
    intro l
    exact (List.sorted_mergeSort eventLE_trans eventLE_total l).imp
      (fun h => (eventLE_iff _ _).mp h)
  refine ⟨hsorted es, List.mergeSort_perm es eventLE, ?_⟩
  intro es' hp hd
  have hperm : (sortEvents es').Perm (sortEvents es) :=
    (List.mergeSort_perm es' eventLE).trans
      (hp.symm.trans (List.mergeSort_perm es eventLE).symm)
  refine sorted_distinct_unique _ _ hperm (hsorted es') (hsorted es) ?_
  have hse : (sortEvents es').Perm es :=
    (List.mergeSort_perm es' eventLE).trans hp.symm
  exact (hse.pairwise_iff (fun h => Ne.symm h)).mpr hd

/-- An early event for the ordering witness. -/
def earlySession : CanonicalEvent :=
  { sessionViaCourse with identity := "tt/b#0", start := 50, «end» := 90 }

/-- A later event for the ordering witness. -/
def lateSession : CanonicalEvent :=
  { sessionViaCourse with identity := "tt/a#0", start := 100, «end» := 200 }

/-- Witness for C5: sorting either presentation of the same two-event
set produces the same sequence. -/
theorem C5_output_ordering_stable_witness :
    ([lateSession, earlySession] : List CanonicalEvent).Perm
        [earlySession, lateSession] ∧
      sortEvents [earlySession, lateSession] =
        sortEvents [lateSession, earlySession] :=
  ⟨List.Perm.swap earlySession lateSession [],
   (C5_output_ordering_stable [lateSession, earlySession]).2.2
     [earlySession, lateSession] (List.Perm.swap earlySession lateSession [])
     (by decide)⟩

end TimetableSync
